import Mathlib

/-!
Verification of the fantasy-F1 optimiser (src/optimise.py, src/solves/normal.py,
src/solves/drs.py).

The two solve functions build a 0/1 linear program over the driver and
constructor rows of a projections table, hand it to an external MILP solver
(PuLP + CBC, a black box returning a status and a variable assignment), and
extract a roster from the assignment.  We embed the projection rows, the
persisted team state, the feasibility predicate encoded by the constraints,
the objective, the result extraction and the ledger update as executable Lean
definitions over ℚ, treating the solver itself as an opaque status/assignment
pair, and prove the specification claims about them.
-/

/-- One row of the projections DataFrame (columns of `generate_projections`:
name, is_driver, is_constructor, price, xPts, price_change).  Decimals are
modelled as rationals. -/
structure Row where
  name : String
  is_driver : Bool
  is_constructor : Bool
  price : ℚ
  xPts : ℚ
  price_change : ℚ
deriving DecidableEq

/-- The persisted team state, the JSON record at data/team.json
(normal.py lines 41-45 / drs.py lines 50-54). -/
structure TeamState where
  drivers : List String
  constructors : List String
  available_transfers : ℤ
  remaining_budget : ℚ
deriving DecidableEq

/-- `projections[projections['is_driver'] == True]` (normal.py line 54). -/
def driversOf (projections : List Row) : List Row :=
  projections.filter (fun e => e.is_driver)

/-- `projections[projections['is_constructor'] == True]` (normal.py line 55). -/
def constructorsOf (projections : List Row) : List Row :=
  projections.filter (fun e => e.is_constructor)

/-- The name index of a row list (`drivers.index` after `set_index('name')`). -/
def names (l : List Row) : List String := l.map (fun e => e.name)

/-- Row lookup by name, `frame.loc[n]` on the name index (first match). -/
def findRow (l : List Row) (n : String) : Option Row :=
  l.find? (fun e => e.name == n)

/-- `frame.loc[n, col]` for a numeric column `f`; 0 when the name is absent
(the code only evaluates it at names present in the index). -/
def fieldOf (f : Row → ℚ) (l : List Row) (n : String) : ℚ :=
  ((findRow l n).map f).getD 0

/-- `[frame.loc[d, 'price'] for d in prev if d in frame.index]`
(normal.py lines 58-59 / drs.py lines 67-68): the current prices of the
previously owned names that are still present in the projections. -/
def presentPrices (l : List Row) (prev : List String) : List ℚ :=
  prev.filterMap (fun n => (findRow l n).map (fun e => e.price))

/-- The cost cap of a solve (normal.py lines 56-68 / drs.py lines 66-77):
with a previous team state it is the current value of the still-present
previous roster plus the banked remaining budget; without one it is the
fixed starting budget 100.0. -/
def cost_cap (dr cs : List Row) : Option TeamState → ℚ
  | some ts =>
      (presentPrices dr ts.drivers).sum + (presentPrices cs ts.constructors).sum
        + ts.remaining_budget
  | none => 100

/-- Number of selected names in a name list: the value of
`lpSum([v[n] for n in ns])` at a 0/1 assignment `v`. -/
def selCount (ns : List String) (v : String → Bool) : ℕ :=
  (ns.filter v).length

/-- Value of `lpSum([f(e) * v[e.name] for e in l])` at a 0/1 assignment. -/
def wsum (l : List Row) (f : Row → ℚ) (v : String → Bool) : ℚ :=
  (l.map (fun e => if v e.name then f e else 0)).sum

/-- `total_transfers` (normal.py lines 96-99 / drs.py lines 110-113): the
number of selected drivers whose name is not in the previous roster plus the
same count for constructors. -/
def total_transfers (dr cs : List Row) (prev_d prev_c : List String)
    (x y : String → Bool) : ℕ :=
  selCount ((names dr).filter (fun d => !prev_d.contains d)) x +
  selCount ((names cs).filter (fun c => !prev_c.contains c)) y

/-- The ledger rule for the next round's transfer allowance
(normal.py lines 187-190 / drs.py lines 216-219): 2 on the first-ever round
(empty previous roster), else 3 when strictly fewer transfers were used than
allowed, else 2. -/
def next_available_transfers (prev_d prev_c : List String)
    (transfers_used : ℕ) (available : ℤ) : ℤ :=
  if prev_d = [] ∧ prev_c = [] then 2
  else if (transfers_used : ℤ) < available then 3 else 2

/-- `new_remaining_budget = cost_cap - total_selected_cost`
(normal.py line 146 / drs.py line 167). -/
def new_remaining_budget (cap total_selected_cost : ℚ) : ℚ :=
  cap - total_selected_cost

/-- Round-half-to-even to an integer, the semantics of Python's built-in
`round` on an exactly representable value (float representation error is out
of scope; no statement below evaluates it at a tie). -/
def roundHalfEven (q : ℚ) : ℤ :=
  if q - ⌊q⌋ < 1/2 then ⌊q⌋
  else if 1/2 < q - ⌊q⌋ then ⌊q⌋ + 1
  else if ⌊q⌋ % 2 = 0 then ⌊q⌋ else ⌊q⌋ + 1

/-- Python `round(q, 1)`. -/
def pyRound1 (q : ℚ) : ℚ := (roundHalfEven (q * 10) : ℚ) / 10

/-- The remaining budget normal_solve writes into team.json on a confirmed
save (normal.py line 196): the exact value. -/
def normal_saved_remaining_budget (cap total_selected_cost : ℚ) : ℚ :=
  new_remaining_budget cap total_selected_cost

/-- The remaining budget drs_solve writes into team.json on a confirmed save
(drs.py line 225): `round(new_remaining_budget, 1)`. -/
def drs_saved_remaining_budget (cap total_selected_cost : ℚ) : ℚ :=
  pyRound1 (new_remaining_budget cap total_selected_cost)

/-- Parameter names of `def normal_solve(projections):` (normal.py line 7). -/
def normal_solve_param_names : List String := ["projections"]

/-- Parameter names of `def drs_solve(projections, show_prints=True,
ask_to_save=True):` (drs.py line 7). -/
def drs_solve_param_names : List String :=
  ["projections", "show_prints", "ask_to_save"]

/-- The four calls made by `run_all_solves` (optimise.py lines 31-34):
callee name together with the keyword-argument names it passes. -/
def run_all_solves_calls : List (String × List String) :=
  [("normal_solve", ["show_prints", "ask_to_save"]),
   ("normal_solve", ["is_wildcard", "show_prints", "ask_to_save"]),
   ("normal_solve", ["is_limitless", "show_prints", "ask_to_save"]),
   ("drs_solve", ["show_prints", "ask_to_save"])]

/-- The declared parameter list of each callee in this repository. -/
def paramsOf : String → List String
  | "normal_solve" => normal_solve_param_names
  | "drs_solve" => drs_solve_param_names
  | _ => []

/-- A Python call binds without a TypeError only when every keyword argument
names a declared parameter. -/
def callAccepted (params keywords : List String) : Bool :=
  keywords.all (fun k => params.contains k)

/-- A JSON value, as loaded by `json.load`. -/
inductive JsonVal where
  | null
  | bool (b : Bool)
  | num (q : ℚ)
  | str (s : String)
  | arr (xs : List JsonVal)
  | obj (fields : List (String × JsonVal))

/-- Outcome of `json.load` on data/team.json: a decode failure or a parsed
top-level object's field list. -/
inductive LoadedFile where
  | decodeError
  | parsed (fields : List (String × JsonVal))

/-- A Python exception escaping the team-state loading block. -/
inductive PyErr where
  | KeyError (k : String)
deriving DecidableEq

/-- The team-state loading block shared by normal.py lines 38-51 and drs.py
lines 47-60: only `json.JSONDecodeError` is caught (yielding the first-round
defaults `[] / [] / 1000 / 100.0`); the four subscripts `data['drivers']`,
`data['constructors']`, `data['available_transfers']`,
`data['remaining_budget']` are evaluated in that order inside the `try`, and
a `KeyError` from any of them propagates uncaught. -/
def loadPreviousTeam : LoadedFile → Except PyErr (JsonVal × JsonVal × JsonVal × JsonVal)
  | .decodeError => .ok (.arr [], .arr [], .num 1000, .num 100)
  | .parsed fields =>
    match fields.find? (fun p => p.1 == "drivers") with
    | none => .error (.KeyError "drivers")
    | some pd =>
      match fields.find? (fun p => p.1 == "constructors") with
      | none => .error (.KeyError "constructors")
      | some pc =>
        match fields.find? (fun p => p.1 == "available_transfers") with
        | none => .error (.KeyError "available_transfers")
        | some pa =>
          match fields.find? (fun p => p.1 == "remaining_budget") with
          | none => .error (.KeyError "remaining_budget")
          | some pr => .ok (pd.2, pc.2, pa.2, pr.2)

/-- True exactly when the load ended in an uncaught KeyError. -/
def isKeyError {α : Type} : Except PyErr α → Bool
  | .error (.KeyError _) => true
  | .ok _ => false

/-- PuLP solver status as tested at normal.py line 120 / drs.py line 139. -/
inductive LpStatus where
  | Optimal
  | NotSolved
  | Infeasible
  | Unbounded
  | Undefined
deriving DecidableEq

/-- A variable assignment for the normal model (normal.py lines 79-82):
0/1 driver-selection, constructor-selection and boost variables indexed by
name, and the continuous `penalty_transfers`. -/
structure NormalAssign where
  x : String → Bool
  y : String → Bool
  b : String → Bool
  penalty_transfers : ℚ

/-- The roster constraints of the normal model (normal.py lines 85-93):
exactly 5 drivers, exactly 2 constructors, selected prices within the cost
cap, exactly one boost, and the boost only on a selected driver. -/
def normalRosterOk (dr cs : List Row) (cap : ℚ) (a : NormalAssign) : Prop :=
  selCount (names dr) a.x = 5 ∧
  selCount (names cs) a.y = 2 ∧
  wsum dr Row.price a.x + wsum cs Row.price a.y ≤ cap ∧
  selCount (names dr) a.b = 1 ∧
  ∀ e ∈ dr, a.b e.name = true → a.x e.name = true

/-- Full feasibility of the normal model: the roster constraints plus the
transfer-penalty constraints (normal.py lines 82 and 100): the variable's
lower bound 0 and `penalty_transfers >= total_transfers - available`. -/
def normalFeasible (dr cs : List Row) (prev_d prev_c : List String)
    (available : ℤ) (cap : ℚ) (a : NormalAssign) : Prop :=
  normalRosterOk dr cs cap a ∧
  0 ≤ a.penalty_transfers ∧
  (total_transfers dr cs prev_d prev_c a.x a.y : ℚ) - (available : ℚ)
    ≤ a.penalty_transfers

/-- `base_points` of the normal objective (normal.py lines 104-108). -/
def normalBasePoints (dr cs : List Row) (a : NormalAssign) : ℚ :=
  wsum cs Row.xPts a.y + wsum dr Row.xPts a.x + wsum dr Row.xPts a.b

/-- `price_change_term` of either objective (normal.py lines 110-113 /
drs.py lines 129-132). -/
def priceChangeTerm (dr cs : List Row) (x y : String → Bool) : ℚ :=
  wsum cs Row.price_change y + wsum dr Row.price_change x

/-- The normal objective (normal.py line 115):
`base_points + price_change_weight * price_change_term - 10 * penalty`. -/
def normalObjective (w : ℚ) (dr cs : List Row) (a : NormalAssign) : ℚ :=
  normalBasePoints dr cs a + w * priceChangeTerm dr cs a.x a.y
    - 10 * a.penalty_transfers

/-- An optimal solver outcome for the normal model: a feasible assignment
whose objective dominates every feasible assignment. -/
def normalOptimal (w : ℚ) (dr cs : List Row) (prev_d prev_c : List String)
    (available : ℤ) (cap : ℚ) (a : NormalAssign) : Prop :=
  normalFeasible dr cs prev_d prev_c available cap a ∧
  ∀ a2, normalFeasible dr cs prev_d prev_c available cap a2 →
    normalObjective w dr cs a2 ≤ normalObjective w dr cs a

/-- The result record normal_solve extracts from an optimal assignment
(normal.py lines 124-146). -/
structure NormalResult where
  selected_drivers : List String
  selected_constructors : List String
  boosted_driver : String
  transfers_used : ℕ
  penalty : ℚ
  base_xPts : ℚ
  total_selected_cost : ℚ
  remaining_budget_out : ℚ
deriving DecidableEq

/-- Result extraction of normal_solve (normal.py lines 124-146): selected
names are the index names whose variable is 1, the boosted driver is the
first name whose boost variable is 1 (`[...][0]`, modelled as `head?`),
`base_xPts` is recomputed from the selected entries' xPts plus the boosted
driver's xPts minus `10 * penalty`, and the cost figures come from the
selected entries' prices.  `normalResultOf` is the record built once the
boosted driver is known; `normalExtract` feeds it the head of the boost
list. -/
def normalResultOf (dr cs : List Row) (prev_d prev_c : List String)
    (cap : ℚ) (a : NormalAssign) (bd : String) : NormalResult :=
  { selected_drivers := (names dr).filter a.x
    selected_constructors := (names cs).filter a.y
    boosted_driver := bd
    transfers_used :=
      (((names dr).filter a.x).filter (fun d => !prev_d.contains d)).length +
      (((names cs).filter a.y).filter (fun c => !prev_c.contains c)).length
    penalty := a.penalty_transfers
    base_xPts := (((names cs).filter a.y).map (fieldOf Row.xPts cs)).sum +
      (((names dr).filter a.x).map (fieldOf Row.xPts dr)).sum +
      fieldOf Row.xPts dr bd - 10 * a.penalty_transfers
    total_selected_cost :=
      (((names dr).filter a.x).map (fieldOf Row.price dr)).sum +
      (((names cs).filter a.y).map (fieldOf Row.price cs)).sum
    remaining_budget_out := new_remaining_budget cap
      ((((names dr).filter a.x).map (fieldOf Row.price dr)).sum +
       (((names cs).filter a.y).map (fieldOf Row.price cs)).sum) }

def normalExtract (dr cs : List Row) (prev_d prev_c : List String)
    (cap : ℚ) (a : NormalAssign) : Option NormalResult :=
  (((names dr).filter a.b).head?).map (normalResultOf dr cs prev_d prev_c cap a)

/-- normal_solve's behaviour after the solver returns (normal.py lines
119-146): any status other than Optimal returns no result (lines 120-122);
only an Optimal status reaches the extraction code. -/
def normalSolveFrom (status : LpStatus) (dr cs : List Row)
    (prev_d prev_c : List String) (cap : ℚ) (a : NormalAssign) :
    Option NormalResult :=
  if status = LpStatus.Optimal then normalExtract dr cs prev_d prev_c cap a
  else none

/-- A variable assignment for the DRS model (drs.py lines 88-93): selection
variables, the two boost tiers, the continuous `penalty_transfers` and the
binary `roll_transfer`. -/
structure DrsAssign where
  x : String → Bool
  y : String → Bool
  b2 : String → Bool
  b3 : String → Bool
  penalty_transfers : ℚ
  roll_transfer : Bool

/-- The numeric value of the binary `roll_transfer` variable. -/
def rollQ (a : DrsAssign) : ℚ := if a.roll_transfer then 1 else 0

/-- The roster constraints of the DRS model (drs.py lines 96-107): counts,
cost cap, exactly one 2x boost, exactly one 3x boost, each boost only on a
selected driver, and never both boosts on the same driver. -/
def drsRosterOk (dr cs : List Row) (cap : ℚ) (a : DrsAssign) : Prop :=
  selCount (names dr) a.x = 5 ∧
  selCount (names cs) a.y = 2 ∧
  wsum dr Row.price a.x + wsum cs Row.price a.y ≤ cap ∧
  selCount (names dr) a.b2 = 1 ∧
  selCount (names dr) a.b3 = 1 ∧
  (∀ e ∈ dr, a.b2 e.name = true → a.x e.name = true) ∧
  (∀ e ∈ dr, a.b3 e.name = true → a.x e.name = true) ∧
  (∀ e ∈ dr, ¬(a.b2 e.name = true ∧ a.b3 e.name = true))

/-- Full feasibility of the DRS model: the roster constraints, the
transfer-penalty constraints (drs.py lines 92 and 114), and — only when
`available_transfers > 1` — the roll-transfer constraint
`roll_transfer <= 1 - total_transfers / available_transfers`
(drs.py lines 117-118). -/
def drsFeasible (dr cs : List Row) (prev_d prev_c : List String)
    (available : ℤ) (cap : ℚ) (a : DrsAssign) : Prop :=
  drsRosterOk dr cs cap a ∧
  0 ≤ a.penalty_transfers ∧
  (total_transfers dr cs prev_d prev_c a.x a.y : ℚ) - (available : ℚ)
    ≤ a.penalty_transfers ∧
  (1 < available → rollQ a ≤
    1 - (total_transfers dr cs prev_d prev_c a.x a.y : ℚ) / (available : ℚ))

/-- `base_points` of the DRS objective (drs.py lines 122-127): the 2x boost
adds one extra copy of the driver's xPts, the 3x boost two extra copies. -/
def drsBasePoints (dr cs : List Row) (a : DrsAssign) : ℚ :=
  wsum cs Row.xPts a.y + wsum dr Row.xPts a.x +
  wsum dr Row.xPts a.b2 + 2 * wsum dr Row.xPts a.b3

/-- The DRS objective (drs.py line 134): base points plus the weighted price
change term minus `10 * penalty` plus the weighted roll-transfer bonus. -/
def drsObjective (w rw : ℚ) (dr cs : List Row) (a : DrsAssign) : ℚ :=
  drsBasePoints dr cs a + w * priceChangeTerm dr cs a.x a.y
    - 10 * a.penalty_transfers + rw * rollQ a

/-- An optimal solver outcome for the DRS model. -/
def drsOptimal (w rw : ℚ) (dr cs : List Row) (prev_d prev_c : List String)
    (available : ℤ) (cap : ℚ) (a : DrsAssign) : Prop :=
  drsFeasible dr cs prev_d prev_c available cap a ∧
  ∀ a2, drsFeasible dr cs prev_d prev_c available cap a2 →
    drsObjective w rw dr cs a2 ≤ drsObjective w rw dr cs a

/-- The result dictionary drs_solve extracts from an optimal assignment
(drs.py lines 144-173 and 236-245). -/
structure DrsResult where
  solve_name : String
  selected_drivers : List String
  selected_constructors : List String
  boosted_driver_2x : String
  boosted_driver_3x : String
  transfers_used : ℕ
  penalty : ℚ
  base_xPts : ℚ
  projected_price_change : ℚ
  total_selected_cost : ℚ
  remaining_budget_out : ℚ
deriving DecidableEq

/-- Result extraction of drs_solve (drs.py lines 144-173): as for
normal_solve but with the first 2x-boosted and first 3x-boosted names,
`base_xPts` adding one extra copy of the 2x driver's xPts and two extra
copies of the 3x driver's xPts minus `10 * penalty`, and the informational
`projected_price_change` summed over the selected entries. -/
def drsResultOf (dr cs : List Row) (prev_d prev_c : List String)
    (cap : ℚ) (a : DrsAssign) (bd2 bd3 : String) : DrsResult :=
  { solve_name := "DRS Boost"
    selected_drivers := (names dr).filter a.x
    selected_constructors := (names cs).filter a.y
    boosted_driver_2x := bd2
    boosted_driver_3x := bd3
    transfers_used :=
      (((names dr).filter a.x).filter (fun d => !prev_d.contains d)).length +
      (((names cs).filter a.y).filter (fun c => !prev_c.contains c)).length
    penalty := a.penalty_transfers
    base_xPts := (((names cs).filter a.y).map (fieldOf Row.xPts cs)).sum +
      (((names dr).filter a.x).map (fieldOf Row.xPts dr)).sum +
      fieldOf Row.xPts dr bd2 + 2 * fieldOf Row.xPts dr bd3 -
      10 * a.penalty_transfers
    projected_price_change :=
      (((names dr).filter a.x).map (fieldOf Row.price_change dr)).sum +
      (((names cs).filter a.y).map (fieldOf Row.price_change cs)).sum
    total_selected_cost :=
      (((names dr).filter a.x).map (fieldOf Row.price dr)).sum +
      (((names cs).filter a.y).map (fieldOf Row.price cs)).sum
    remaining_budget_out := new_remaining_budget cap
      ((((names dr).filter a.x).map (fieldOf Row.price dr)).sum +
       (((names cs).filter a.y).map (fieldOf Row.price cs)).sum) }

def drsExtract (dr cs : List Row) (prev_d prev_c : List String)
    (cap : ℚ) (a : DrsAssign) : Option DrsResult :=
  (((names dr).filter a.b2).head?).bind (fun bd2 =>
    (((names dr).filter a.b3).head?).map (drsResultOf dr cs prev_d prev_c cap a bd2))

/-- drs_solve's behaviour after the solver returns (drs.py lines 138-141):
any status other than Optimal returns no result; only an Optimal status
reaches the extraction code. -/
def drsSolveFrom (status : LpStatus) (dr cs : List Row)
    (prev_d prev_c : List String) (cap : ℚ) (a : DrsAssign) :
    Option DrsResult :=
  if status = LpStatus.Optimal then drsExtract dr cs prev_d prev_c cap a
  else none

/-- Replace every row's price_change by an arbitrary function of its name,
leaving name, role flags, price and xPts untouched; used to state that the
reported `base_xPts` is free of any price-change contribution. -/
def setPriceChange (f : String → ℚ) (l : List Row) : List Row :=
  l.map (fun e => { e with price_change := f e.name })

/-- The value C2 claims for the reported `base_xPts` of a normal solve: the
selected entries' xPts plus one extra copy of the boosted driver's xPts,
with no other term.  (Stated from the claim's words, for comparison with the
extraction `normalExtract`, which also subtracts `10 * penalty`.) -/
def claimedNormalBase (dr cs : List Row) (r : NormalResult) : ℚ :=
  (r.selected_constructors.map (fieldOf Row.xPts cs)).sum +
  (r.selected_drivers.map (fieldOf Row.xPts dr)).sum +
  fieldOf Row.xPts dr r.boosted_driver

/-- A concrete projections table with exactly 5 drivers, all priced 10 with
xPts 10, and 2 constructors priced 10 with xPts 5. -/
def exDrivers : List Row :=
  [⟨"D1", true, false, 10, 10, 0⟩, ⟨"D2", true, false, 10, 10, 0⟩,
   ⟨"D3", true, false, 10, 10, 0⟩, ⟨"D4", true, false, 10, 10, 0⟩,
   ⟨"D5", true, false, 10, 10, 0⟩]

/-- The constructors of the concrete table. -/
def exConstructors : List Row :=
  [⟨"C1", false, true, 10, 5, 0⟩, ⟨"C2", false, true, 10, 5, 0⟩]

/-- A previous driver roster none of whose names appear in the projections. -/
def exAbsentD : List String := ["P1", "P2", "P3", "P4", "P5"]

/-- A previous constructor roster absent from the projections. -/
def exAbsentC : List String := ["Q1", "Q2"]

/-- A previous roster owning exactly the projections' drivers. -/
def exOwnedD : List String := ["D1", "D2", "D3", "D4", "D5"]

/-- A previous roster owning exactly the projections' constructors. -/
def exOwnedC : List String := ["C1", "C2"]

/-- The only roster available on `exDrivers`/`exConstructors`, boosting D1;
with the previous roster absent and `available_transfers = 1` every one of
the 7 selections is a transfer, so the penalty floor is 6. -/
def exNormalAssign : NormalAssign :=
  { x := fun n => ["D1", "D2", "D3", "D4", "D5"].contains n
    y := fun n => ["C1", "C2"].contains n
    b := fun n => n == "D1"
    penalty_transfers := 6 }

/-- A DRS assignment selecting the whole table, 2x boost on D1, 3x on D2,
no transfers used against the owned previous roster. -/
def exDrsAssign : DrsAssign :=
  { x := fun n => ["D1", "D2", "D3", "D4", "D5"].contains n
    y := fun n => ["C1", "C2"].contains n
    b2 := fun n => n == "D1"
    b3 := fun n => n == "D2"
    penalty_transfers := 0
    roll_transfer := true }

/-- The same forced roster as `exNormalAssign`, as a DRS assignment: all 7
entries selected against the absent previous roster (7 transfers), the
penalty set to the exact excess 5 over an allowance of 2, roll flag down. -/
def exDrsAssign2 : DrsAssign :=
  { x := fun n => ["D1", "D2", "D3", "D4", "D5"].contains n
    y := fun n => ["C1", "C2"].contains n
    b2 := fun n => n == "D1"
    b3 := fun n => n == "D2"
    penalty_transfers := 5
    roll_transfer := false }

theorem selCount_eq_length_all {ns : List String} {v : String → Bool}
    (h : selCount ns v = ns.length) : ∀ n ∈ ns, v n = true :=
  List.filter_length_eq_length.mp h

theorem selCount_eq_one_head {ns : List String} {v : String → Bool}
    (h : selCount ns v = 1) :
    ∃ n, (ns.filter v).head? = some n ∧ n ∈ ns ∧ v n = true := by
  obtain ⟨n, hn⟩ := List.length_eq_one.mp h
  have hmem : n ∈ ns.filter v := by rw [hn]; exact List.mem_singleton_self n
  obtain ⟨h1, h2⟩ := List.mem_filter.mp hmem
  exact ⟨n, by rw [hn]; rfl, h1, h2⟩

theorem wsum_eq_filter_sum (l : List Row) (f : Row → ℚ) (v : String → Bool) :
    wsum l f v = ((l.filter (fun e => v e.name)).map f).sum := by
  induction l with
  | nil => rfl
  | cons e t ih =>
    by_cases h : v e.name <;>
      simp [wsum, List.filter_cons, h, ih] <;> simp [wsum] at ih <;> simp [ih]

theorem wsum_all {l : List Row} {f : Row → ℚ} {v : String → Bool}
    (h : ∀ e ∈ l, v e.name = true) : wsum l f v = (l.map f).sum := by
  induction l with
  | nil => rfl
  | cons e t ih =>
    have he := h e (List.mem_cons_self e t)
    have ht : ∀ e ∈ t, v e.name = true := fun e2 h2 => h e2 (List.mem_cons_of_mem e h2)
    simp [wsum, he] at *
    simp [ih ht]

theorem wsum_cons (e : Row) (t : List Row) (f : Row → ℚ) (v : String → Bool) :
    wsum (e :: t) f v = (if v e.name then f e else 0) + wsum t f v := by
  simp [wsum]

theorem selCount_names_cons (e : Row) (t : List Row) (v : String → Bool) :
    selCount (names (e :: t)) v = (if v e.name then 1 else 0) + selCount (names t) v := by
  by_cases hv : v e.name <;>
    simp [selCount, names, List.filter_cons, hv, Nat.add_comm]

theorem wsum_const {l : List Row} {f : Row → ℚ} {c : ℚ} (v : String → Bool)
    (h : ∀ e ∈ l, f e = c) :
    wsum l f v = c * (selCount (names l) v : ℚ) := by
  induction l with
  | nil => simp [wsum, selCount, names]
  | cons e t ih =>
    have he := h e (List.mem_cons_self e t)
    have ht : ∀ e2 ∈ t, f e2 = c := fun e2 h2 => h e2 (List.mem_cons_of_mem e h2)
    have ih2 : wsum t f v = c * (selCount (names t) v : ℚ) := ih ht
    rw [wsum_cons, selCount_names_cons, ih2, he]
    by_cases hv : v e.name <;> simp [hv] <;> push_cast <;> ring

theorem fieldOf_cons_self (f : Row → ℚ) (e : Row) (t : List Row) :
    fieldOf f (e :: t) e.name = f e := by
  simp [fieldOf, findRow, List.find?_cons_of_pos]

theorem fieldOf_cons_ne (f : Row → ℚ) (e : Row) (t : List Row) {n : String}
    (h : n ≠ e.name) : fieldOf f (e :: t) n = fieldOf f t n := by
  have hne : ¬((fun r => r.name == n) e = true) := by
    simp only [beq_iff_eq]
    exact fun hc => h hc.symm
  unfold fieldOf findRow
  rw [@List.find?_cons_of_neg _ (fun r => r.name == n) e t hne]

theorem sum_fieldOf_filter (f : Row → ℚ) (v : String → Bool) :
    ∀ l : List Row, (names l).Nodup →
      (((names l).filter v).map (fieldOf f l)).sum = wsum l f v := by
  intro l
  induction l with
  | nil => intro _; rfl
  | cons e t ih =>
    intro hnd
    have hcons : names (e :: t) = e.name :: names t := rfl
    rw [hcons] at hnd
    have hne : e.name ∉ names t := (List.nodup_cons.mp hnd).1
    have hndt : (names t).Nodup := (List.nodup_cons.mp hnd).2
    have hmap : ∀ n ∈ (names t).filter v, fieldOf f (e :: t) n = fieldOf f t n := by
      intro n hn
      have hmem : n ∈ names t := List.mem_of_mem_filter hn
      exact fieldOf_cons_ne f e t (fun hEq => hne (hEq ▸ hmem))
    by_cases hv : v e.name
    · rw [hcons, List.filter_cons_of_pos hv, List.map_cons, List.sum_cons,
        fieldOf_cons_self, List.map_congr_left hmap, ih hndt]
      simp [wsum, hv]
    · rw [hcons, List.filter_cons_of_neg hv, List.map_congr_left hmap, ih hndt]
      simp [wsum, hv]

theorem sum_filterMap_eq_sum_getD (g : String → Option ℚ) :
    ∀ ns : List String,
      (ns.filterMap g).sum = (ns.map (fun n => (g n).getD 0)).sum := by
  intro ns
  induction ns with
  | nil => rfl
  | cons n t ih => cases hg : g n <;> simp [List.filterMap_cons, hg, ih]

theorem mem_names_exists {l : List Row} {n : String} (h : n ∈ names l) :
    ∃ e ∈ l, e.name = n := by
  obtain ⟨e, he, hn⟩ := List.mem_map.mp h
  exact ⟨e, he, hn⟩

theorem exNormal_feasible :
    normalFeasible exDrivers exConstructors exAbsentD exAbsentC 1 100 exNormalAssign := by
  refine ⟨⟨?_, ?_, ?_, ?_, ?_⟩, ?_, ?_⟩ <;>
    simp [normalRosterOk, selCount, wsum, total_transfers, names, exDrivers,
      exConstructors, exAbsentD, exAbsentC, exNormalAssign, List.filter] <;>
    norm_num

theorem exDrs_feasible :
    drsFeasible exDrivers exConstructors exOwnedD exOwnedC 2 100 exDrsAssign := by
  refine ⟨⟨?_, ?_, ?_, ?_, ?_, ?_, ?_, ?_⟩, ?_, ?_, ?_⟩ <;>
    simp [drsRosterOk, selCount, wsum, total_transfers, names, rollQ, exDrivers,
      exConstructors, exOwnedD, exOwnedC, exDrsAssign, List.filter] <;>
    norm_num

theorem exNormal_dominates :
    ∀ a2, normalFeasible exDrivers exConstructors exAbsentD exAbsentC 1 100 a2 →
      normalObjective 0 exDrivers exConstructors a2 ≤
        normalObjective 0 exDrivers exConstructors exNormalAssign := by
  intro a2 hf
  obtain ⟨⟨h5, h2c, hcap, hb1, hbx⟩, hpt0, hptT⟩ := hf
  have hx : ∀ n ∈ names exDrivers, a2.x n = true :=
    selCount_eq_length_all (by rw [h5]; rfl)
  have hy : ∀ n ∈ names exConstructors, a2.y n = true :=
    selCount_eq_length_all (by rw [h2c]; rfl)
  have hxe : ∀ e ∈ exDrivers, a2.x e.name = true :=
    fun e he => hx _ (List.mem_map_of_mem _ he)
  have hye : ∀ e ∈ exConstructors, a2.y e.name = true :=
    fun e he => hy _ (List.mem_map_of_mem _ he)
  have hwx : wsum exDrivers Row.xPts a2.x = 50 := by
    rw [wsum_all hxe]; norm_num [exDrivers]
  have hwy : wsum exConstructors Row.xPts a2.y = 10 := by
    rw [wsum_all hye]; norm_num [exConstructors]
  have hconst : ∀ e ∈ exDrivers, Row.xPts e = 10 := by
    intro e he
    simp only [exDrivers, List.mem_cons, List.not_mem_nil, or_false] at he
    rcases he with rfl | rfl | rfl | rfl | rfl <;> rfl
  have hwb : wsum exDrivers Row.xPts a2.b = 10 := by
    rw [wsum_const a2.b hconst, hb1]; norm_num
  have hT : total_transfers exDrivers exConstructors exAbsentD exAbsentC a2.x a2.y = 7 := by
    have hfd : (names exDrivers).filter (fun d => !exAbsentD.contains d) =
        names exDrivers := rfl
    have hfc : (names exConstructors).filter (fun c => !exAbsentC.contains c) =
        names exConstructors := rfl
    unfold total_transfers
    rw [hfd, hfc, h5, h2c]
  have hpt : (6 : ℚ) ≤ a2.penalty_transfers := by
    rw [hT] at hptT; push_cast at hptT; linarith
  have hobj : normalObjective 0 exDrivers exConstructors exNormalAssign = 10 := by
    simp [normalObjective, normalBasePoints, priceChangeTerm, wsum, exDrivers,
      exConstructors, exNormalAssign]
    norm_num
  rw [hobj]
  simp only [normalObjective, normalBasePoints]
  rw [hwx, hwy, hwb, zero_mul]
  linarith

/-- C3 (code evaluation at the failing call pattern): of the four calls that
`run_all_solves` makes (optimise.py lines 31-34), the three `normal_solve`
calls pass keyword arguments that `def normal_solve(projections):`
(normal.py line 7) does not declare, so each raises a TypeError; only the
`drs_solve` call binds.  `run_all_solves` therefore cannot produce one
result per mode as claimed. -/
theorem run_all_solves_keyword_mismatch :
    run_all_solves_calls.map (fun c => callAccepted (paramsOf c.1) c.2) =
      [false, false, false, true] := by
  decide

/-- C4 counterexample: with a non-empty previous roster, 3 transfers used
and an allowance of 2 (more used than allowed), the persisted next allowance
is 2, not the 3 the claim predicts for every non-empty, non-equal case. -/
theorem next_transfers_overuse_counterexample :
    next_available_transfers ["a"] [] 3 2 ≠ 3 ∧
    next_available_transfers ["a"] [] 3 2 = 2 := by
  decide

/-- C4 (amended): on a confirmed save the persisted next allowance is always
2 or 3, and it is 3 exactly when the previous roster was non-empty and
strictly fewer transfers were used than were available; in every other case
— empty previous roster, or transfers used at least the allowance, including
exceeding it — it is 2. -/
theorem next_transfers_ledger_rule :
    ∀ (prev_d prev_c : List String) (used : ℕ) (avail : ℤ),
      (next_available_transfers prev_d prev_c used avail = 2 ∨
       next_available_transfers prev_d prev_c used avail = 3) ∧
      (next_available_transfers prev_d prev_c used avail = 3 ↔
        ¬(prev_d = [] ∧ prev_c = []) ∧ (used : ℤ) < avail) := by
  intro prev_d prev_c used avail
  unfold next_available_transfers
  split_ifs <;> simp_all

/-- C6: with a previous team state the cost cap is the sum over the
previously owned names of their current price when present in the
projections — an absent prior name contributing 0 — plus the persisted
remaining budget; without a previous team state it is the fixed starting
budget 100.0. -/
theorem cost_cap_spec :
    (∀ (dr cs : List Row) (ts : TeamState),
       cost_cap dr cs (some ts) =
         (ts.drivers.map (fieldOf Row.price dr)).sum +
         (ts.constructors.map (fieldOf Row.price cs)).sum +
         ts.remaining_budget) ∧
    (∀ dr cs : List Row, cost_cap dr cs none = 100) := by
  constructor
  · intro dr cs ts
    have h : cost_cap dr cs (some ts) =
        (presentPrices dr ts.drivers).sum + (presentPrices cs ts.constructors).sum
          + ts.remaining_budget := rfl
    rw [h]
    unfold presentPrices
    rw [sum_filterMap_eq_sum_getD, sum_filterMap_eq_sum_getD]
    rfl
  · intro dr cs
    rfl

/-- C7: whenever the solver returns any status other than Optimal, both
normal_solve (normal.py lines 119-122) and drs_solve (drs.py lines 138-141)
return no result: the extraction code that would build a roster, transfer
list or point total is never reached. -/
theorem non_optimal_returns_none :
    (∀ (status : LpStatus) (dr cs : List Row) (prev_d prev_c : List String)
       (cap : ℚ) (a : NormalAssign), status ≠ LpStatus.Optimal →
       normalSolveFrom status dr cs prev_d prev_c cap a = none) ∧
    (∀ (status : LpStatus) (dr cs : List Row) (prev_d prev_c : List String)
       (cap : ℚ) (a : DrsAssign), status ≠ LpStatus.Optimal →
       drsSolveFrom status dr cs prev_d prev_c cap a = none) := by
  constructor <;> intro status dr cs prev_d prev_c cap a h <;>
    simp [normalSolveFrom, drsSolveFrom, h]

/-- C7 witness: an Infeasible status makes both solves return no result on
the concrete instance. -/
theorem non_optimal_returns_none_witness :
    normalSolveFrom LpStatus.Infeasible exDrivers exConstructors exAbsentD
      exAbsentC 100 exNormalAssign = none ∧
    drsSolveFrom LpStatus.Infeasible exDrivers exConstructors exOwnedD
      exOwnedC 100 exDrsAssign = none :=
  ⟨non_optimal_returns_none.1 _ _ _ _ _ _ _ (by decide),
   non_optimal_returns_none.2 _ _ _ _ _ _ _ (by decide)⟩

/-- C9: if data/team.json parses as JSON but its top-level object lacks any
of the keys drivers, constructors, available_transfers, remaining_budget,
the shared loading block of normal_solve and drs_solve ends in an uncaught
KeyError (only json.JSONDecodeError is caught); a decode failure, by
contrast, falls back to the first-round defaults. -/
theorem missing_key_raises_keyerror :
    (∀ fields : List (String × JsonVal),
       ((fields.find? (fun p => p.1 == "drivers")).isNone ∨
        (fields.find? (fun p => p.1 == "constructors")).isNone ∨
        (fields.find? (fun p => p.1 == "available_transfers")).isNone ∨
        (fields.find? (fun p => p.1 == "remaining_budget")).isNone) →
       isKeyError (loadPreviousTeam (.parsed fields)) = true) ∧
    loadPreviousTeam .decodeError =
      .ok (.arr [], .arr [], .num 1000, .num 100) := by
  constructor
  · intro fields h
    cases h1 : fields.find? (fun p => p.1 == "drivers") with
    | none => simp [loadPreviousTeam, isKeyError, h1]
    | some pd =>
      cases h2 : fields.find? (fun p => p.1 == "constructors") with
      | none => simp [loadPreviousTeam, isKeyError, h1, h2]
      | some pc =>
        cases h3 : fields.find? (fun p => p.1 == "available_transfers") with
        | none => simp [loadPreviousTeam, isKeyError, h1, h2, h3]
        | some pa =>
          cases h4 : fields.find? (fun p => p.1 == "remaining_budget") with
          | none => simp [loadPreviousTeam, isKeyError, h1, h2, h3, h4]
          | some pr => simp [h1, h2, h3, h4] at h
  · rfl

/-- C9 witness: a parsed object holding only available_transfers ends in a
KeyError, and a decode failure yields the defaults. -/
theorem missing_key_raises_keyerror_witness :
    isKeyError (loadPreviousTeam
      (.parsed [("available_transfers", JsonVal.num 3)])) = true ∧
    loadPreviousTeam .decodeError =
      .ok (.arr [], .arr [], .num 1000, .num 100) :=
  ⟨missing_key_raises_keyerror.1 _ (Or.inl rfl),
   missing_key_raises_keyerror.2⟩

/-- C10: on a confirmed save normal_solve persists the exact remaining
budget `cost_cap - total_selected_cost` (normal.py line 196) while drs_solve
persists it rounded to one decimal place (drs.py line 225), so for the same
roster and cost cap the two paths can write different values: with cost cap
100 and selected cost 93.07 normal writes 6.93 and drs writes 6.9. -/
theorem drs_rounds_saved_budget :
    (∀ cap tc : ℚ, normal_saved_remaining_budget cap tc = cap - tc) ∧
    (∀ cap tc : ℚ, drs_saved_remaining_budget cap tc =
       pyRound1 (normal_saved_remaining_budget cap tc)) ∧
    drs_saved_remaining_budget 100 (9307/100) = 69/10 ∧
    normal_saved_remaining_budget 100 (9307/100) = 693/100 ∧
    drs_saved_remaining_budget 100 (9307/100) ≠
      normal_saved_remaining_budget 100 (9307/100) := by
  have hn : normal_saved_remaining_budget 100 (9307/100) = 693/100 := by
    unfold normal_saved_remaining_budget new_remaining_budget
    norm_num
  have hd : drs_saved_remaining_budget 100 (9307/100) = 69/10 := by
    unfold drs_saved_remaining_budget new_remaining_budget
    have h1 : ((100 : ℚ) - 9307/100) * 10 = 693/10 := by norm_num
    have h2 : (⌊(693/10 : ℚ)⌋ : ℤ) = 69 := by
      rw [Int.floor_eq_iff] <;> norm_num
    unfold pyRound1 roundHalfEven
    rw [h1, h2]
    norm_num
  refine ⟨fun cap tc => rfl, fun cap tc => rfl, hd, hn, ?_⟩
  rw [hd, hn]
  norm_num

/-- C8: when `available_transfers > 1` the DRS model carries the constraint
`roll_transfer <= 1 - total_transfers / available_transfers` (drs.py lines
117-118), so every feasible assignment with the roll flag set uses strictly
fewer transfers than are available (in fact, the linear constraint forces
zero transfers at `roll_transfer = 1`). -/
theorem roll_transfer_requires_spare :
    ∀ (dr cs : List Row) (prev_d prev_c : List String) (available : ℤ)
      (cap : ℚ) (a : DrsAssign),
      1 < available →
      drsFeasible dr cs prev_d prev_c available cap a →
      a.roll_transfer = true →
      (total_transfers dr cs prev_d prev_c a.x a.y : ℤ) < available := by
  intro dr cs prev_d prev_c available cap a havail hfeas hroll
  obtain ⟨_, _, _, hconstraint⟩ := hfeas
  have hr : rollQ a = 1 := by simp [rollQ, hroll]
  have hA : (0 : ℚ) < (available : ℚ) := by
    have : (0 : ℤ) < available := lt_trans Int.zero_lt_one havail
    exact_mod_cast this
  set T : ℕ := total_transfers dr cs prev_d prev_c a.x a.y with hT
  have h1 : (1 : ℚ) ≤ 1 - (T : ℚ) / (available : ℚ) := by
    have h0 := hconstraint havail
    rw [hr] at h0
    exact h0
  have h2 : (T : ℚ) / (available : ℚ) ≤ 0 := by linarith
  have h3 : (T : ℚ) ≤ 0 := by
    by_contra hc
    push_neg at hc
    have := div_pos hc hA
    linarith
  have h4 : T = 0 := by exact_mod_cast le_antisymm h3 (by positivity)
  rw [h4]
  exact_mod_cast lt_trans Int.zero_lt_one havail

/-- C8 witness: the concrete DRS assignment rolling a transfer against a
fully owned roster with 2 available transfers uses 0 < 2 transfers. -/
theorem roll_transfer_requires_spare_witness :
    (total_transfers exDrivers exConstructors exOwnedD exOwnedC
      exDrsAssign.x exDrsAssign.y : ℤ) < 2 :=
  roll_transfer_requires_spare exDrivers exConstructors exOwnedD exOwnedC 2
    100 exDrsAssign (by decide) exDrs_feasible rfl

/-- C1: in either solve, any assignment satisfying the model's constraints —
in particular the one an Optimal solver status delivers — extracts to a
result with exactly 5 selected drivers, exactly 2 selected constructors,
selected prices summing to at most the cost cap, and boost recipients among
the selected drivers (for the DRS solve, one 2x and one 3x recipient, and
they are distinct drivers).  The name indices are assumed duplicate-free, as
the projections table keys rows by unique name. -/
theorem optimal_result_roster_shape :
    (∀ (dr cs : List Row) (prev_d prev_c : List String) (available : ℤ)
       (cap : ℚ) (a : NormalAssign),
       (names dr).Nodup → (names cs).Nodup →
       normalFeasible dr cs prev_d prev_c available cap a →
       ∃ r, normalExtract dr cs prev_d prev_c cap a = some r ∧
         r.selected_drivers.length = 5 ∧
         r.selected_constructors.length = 2 ∧
         r.total_selected_cost ≤ cap ∧
         r.boosted_driver ∈ r.selected_drivers) ∧
    (∀ (dr cs : List Row) (prev_d prev_c : List String) (available : ℤ)
       (cap : ℚ) (a : DrsAssign),
       (names dr).Nodup → (names cs).Nodup →
       drsFeasible dr cs prev_d prev_c available cap a →
       ∃ r, drsExtract dr cs prev_d prev_c cap a = some r ∧
         r.selected_drivers.length = 5 ∧
         r.selected_constructors.length = 2 ∧
         r.total_selected_cost ≤ cap ∧
         r.boosted_driver_2x ∈ r.selected_drivers ∧
         r.boosted_driver_3x ∈ r.selected_drivers ∧
         r.boosted_driver_2x ≠ r.boosted_driver_3x) := by
  constructor
  · intro dr cs prev_d prev_c available cap a hnd hnc hfeas
    obtain ⟨⟨h5, h2c, hcap, hb1, hbx⟩, _, _⟩ := hfeas
    obtain ⟨bd, hhead, hbdmem, hbdb⟩ := selCount_eq_one_head hb1
    have hax : a.x bd = true := by
      obtain ⟨e, he, hename⟩ := mem_names_exists hbdmem
      have := hbx e he (by rw [hename]; exact hbdb)
      rwa [hename] at this
    refine ⟨normalResultOf dr cs prev_d prev_c cap a bd, ?_, ?_, ?_, ?_, ?_⟩
    · unfold normalExtract
      rw [hhead, Option.map_some']
    · exact h5
    · exact h2c
    · show (((names dr).filter a.x).map (fieldOf Row.price dr)).sum +
        (((names cs).filter a.y).map (fieldOf Row.price cs)).sum ≤ cap
      rw [sum_fieldOf_filter Row.price a.x dr hnd,
        sum_fieldOf_filter Row.price a.y cs hnc]
      exact hcap
    · exact List.mem_filter.mpr ⟨hbdmem, hax⟩
  · intro dr cs prev_d prev_c available cap a hnd hnc hfeas
    obtain ⟨⟨h5, h2c, hcap, hb2, hb3, hb2x, hb3x, hpair⟩, _, _, _⟩ := hfeas
    obtain ⟨bd2, hhead2, hbd2mem, hbd2b⟩ := selCount_eq_one_head hb2
    obtain ⟨bd3, hhead3, hbd3mem, hbd3b⟩ := selCount_eq_one_head hb3
    obtain ⟨e2, he2, he2name⟩ := mem_names_exists hbd2mem
    obtain ⟨e3, he3, he3name⟩ := mem_names_exists hbd3mem
    have hax2 : a.x bd2 = true := by
      have := hb2x e2 he2 (by rw [he2name]; exact hbd2b)
      rwa [he2name] at this
    have hax3 : a.x bd3 = true := by
      have := hb3x e3 he3 (by rw [he3name]; exact hbd3b)
      rwa [he3name] at this
    have hne : bd2 ≠ bd3 := by
      intro heq
      exact hpair e2 he2 ⟨by rw [he2name]; exact hbd2b,
        by rw [he2name, heq]; exact hbd3b⟩
    refine ⟨drsResultOf dr cs prev_d prev_c cap a bd2 bd3, ?_, ?_, ?_, ?_, ?_, ?_, ?_⟩
    · unfold drsExtract
      rw [hhead2, Option.some_bind, hhead3, Option.map_some']
    · exact h5
    · exact h2c
    · show (((names dr).filter a.x).map (fieldOf Row.price dr)).sum +
        (((names cs).filter a.y).map (fieldOf Row.price cs)).sum ≤ cap
      rw [sum_fieldOf_filter Row.price a.x dr hnd,
        sum_fieldOf_filter Row.price a.y cs hnc]
      exact hcap
    · exact List.mem_filter.mpr ⟨hbd2mem, hax2⟩
    · exact List.mem_filter.mpr ⟨hbd3mem, hax3⟩
    · exact hne

/-- C1 witness: the roster-shape guarantees instantiated on the concrete
feasible normal and DRS assignments. -/
theorem optimal_result_roster_shape_witness :
    (∃ r, normalExtract exDrivers exConstructors exAbsentD exAbsentC 100
        exNormalAssign = some r ∧
      r.selected_drivers.length = 5 ∧
      r.selected_constructors.length = 2 ∧
      r.total_selected_cost ≤ 100 ∧
      r.boosted_driver ∈ r.selected_drivers) ∧
    (∃ r, drsExtract exDrivers exConstructors exOwnedD exOwnedC 100
        exDrsAssign = some r ∧
      r.selected_drivers.length = 5 ∧
      r.selected_constructors.length = 2 ∧
      r.total_selected_cost ≤ 100 ∧
      r.boosted_driver_2x ∈ r.selected_drivers ∧
      r.boosted_driver_3x ∈ r.selected_drivers ∧
      r.boosted_driver_2x ≠ r.boosted_driver_3x) :=
  ⟨optimal_result_roster_shape.1 exDrivers exConstructors exAbsentD exAbsentC
      1 100 exNormalAssign (by decide) (by decide) exNormal_feasible,
   optimal_result_roster_shape.2 exDrivers exConstructors exOwnedD exOwnedC
      2 100 exDrsAssign (by decide) (by decide) exDrs_feasible⟩

theorem names_setPriceChange (f : String → ℚ) (l : List Row) :
    names (setPriceChange f l) = names l := by
  unfold names setPriceChange
  rw [List.map_map]
  rfl

theorem fieldOf_setPriceChange (g : Row → ℚ)
    (hg : ∀ (e : Row) (v : ℚ), g { e with price_change := v } = g e)
    (f : String → ℚ) (l : List Row) (n : String) :
    fieldOf g (setPriceChange f l) n = fieldOf g l n := by
  induction l with
  | nil => rfl
  | cons e t ih =>
    show fieldOf g ({ e with price_change := f e.name } :: setPriceChange f t) n
      = fieldOf g (e :: t) n
    by_cases h : n = e.name
    · have h1 : fieldOf g ({ e with price_change := f e.name } :: setPriceChange f t)
          ({ e with price_change := f e.name } : Row).name = g { e with price_change := f e.name } :=
        fieldOf_cons_self g _ _
      have h2 : fieldOf g (e :: t) e.name = g e := fieldOf_cons_self g e t
      rw [h, h2]
      simpa using h1.trans (hg e (f e.name))
    · have h1 : fieldOf g ({ e with price_change := f e.name } :: setPriceChange f t) n
          = fieldOf g (setPriceChange f t) n := by
        refine fieldOf_cons_ne g _ _ ?_
        simpa using h
      rw [h1, ih, fieldOf_cons_ne g e t h]

/-- C2 (amended): the reported `base_xPts` of either solve is recomputed
from the selected entries' raw xPts — the selected constructors' and
drivers' xPts, one extra copy of the boosted (2x) driver's xPts, two extra
copies of the 3x driver's — minus `10 * penalty_transfers`, and it contains
no price-change contribution: overwriting every entry's price_change leaves
the whole normal result, and the DRS result's `base_xPts`, unchanged, so the
reported value is free of the price-change and roll-transfer bonus terms for
every value of their weights.  (The original claim's "no other term" fails:
the `- 10 * penalty` transfer-penalty term is part of the reported value;
see the counterexample.) -/
theorem base_xPts_recomputed_bonus_free :
    (∀ (f g : String → ℚ) (dr cs : List Row) (prev_d prev_c : List String)
       (cap : ℚ) (a : NormalAssign),
       normalExtract (setPriceChange f dr) (setPriceChange g cs) prev_d prev_c cap a =
         normalExtract dr cs prev_d prev_c cap a) ∧
    (∀ (f g : String → ℚ) (dr cs : List Row) (prev_d prev_c : List String)
       (cap : ℚ) (a : DrsAssign),
       (drsExtract (setPriceChange f dr) (setPriceChange g cs) prev_d prev_c cap a).map
           (fun r => r.base_xPts) =
         (drsExtract dr cs prev_d prev_c cap a).map (fun r => r.base_xPts)) ∧
    (∀ (dr cs : List Row) (prev_d prev_c : List String) (cap : ℚ)
       (a : NormalAssign),
       (names dr).Nodup → (names cs).Nodup → selCount (names dr) a.b = 1 →
       ∃ r, normalExtract dr cs prev_d prev_c cap a = some r ∧
         r.base_xPts = wsum cs Row.xPts a.y + wsum dr Row.xPts a.x +
           fieldOf Row.xPts dr r.boosted_driver - 10 * a.penalty_transfers) ∧
    (∀ (dr cs : List Row) (prev_d prev_c : List String) (cap : ℚ)
       (a : DrsAssign),
       (names dr).Nodup → (names cs).Nodup →
       selCount (names dr) a.b2 = 1 → selCount (names dr) a.b3 = 1 →
       ∃ r, drsExtract dr cs prev_d prev_c cap a = some r ∧
         r.base_xPts = wsum cs Row.xPts a.y + wsum dr Row.xPts a.x +
           fieldOf Row.xPts dr r.boosted_driver_2x +
           2 * fieldOf Row.xPts dr r.boosted_driver_3x -
           10 * a.penalty_transfers) := by
  have hX : ∀ (f : String → ℚ) (l : List Row),
      fieldOf Row.xPts (setPriceChange f l) = fieldOf Row.xPts l :=
    fun f l => funext (fieldOf_setPriceChange Row.xPts (fun _ _ => rfl) f l)
  have hP : ∀ (f : String → ℚ) (l : List Row),
      fieldOf Row.price (setPriceChange f l) = fieldOf Row.price l :=
    fun f l => funext (fieldOf_setPriceChange Row.price (fun _ _ => rfl) f l)
  refine ⟨?_, ?_, ?_, ?_⟩
  · intro f g dr cs prev_d prev_c cap a
    unfold normalExtract normalResultOf
    rw [names_setPriceChange f dr, names_setPriceChange g cs, hX f dr,
      hX g cs, hP f dr, hP g cs]
  · intro f g dr cs prev_d prev_c cap a
    unfold drsExtract drsResultOf
    rw [names_setPriceChange f dr, names_setPriceChange g cs, hX f dr,
      hX g cs, hP f dr, hP g cs]
    cases hh2 : ((names dr).filter a.b2).head? with
    | none => rfl
    | some bd2 =>
      cases hh3 : ((names dr).filter a.b3).head? with
      | none => rfl
      | some bd3 => simp
  · intro dr cs prev_d prev_c cap a hnd hnc hb1
    obtain ⟨bd, hhead, _, _⟩ := selCount_eq_one_head hb1
    refine ⟨normalResultOf dr cs prev_d prev_c cap a bd, ?_, ?_⟩
    · unfold normalExtract
      rw [hhead, Option.map_some']
    · show (((names cs).filter a.y).map (fieldOf Row.xPts cs)).sum +
        (((names dr).filter a.x).map (fieldOf Row.xPts dr)).sum +
        fieldOf Row.xPts dr bd - 10 * a.penalty_transfers =
        wsum cs Row.xPts a.y + wsum dr Row.xPts a.x +
        fieldOf Row.xPts dr bd - 10 * a.penalty_transfers
      rw [sum_fieldOf_filter Row.xPts a.y cs hnc,
        sum_fieldOf_filter Row.xPts a.x dr hnd]
  · intro dr cs prev_d prev_c cap a hnd hnc hb2 hb3
    obtain ⟨bd2, hhead2, _, _⟩ := selCount_eq_one_head hb2
    obtain ⟨bd3, hhead3, _, _⟩ := selCount_eq_one_head hb3
    refine ⟨drsResultOf dr cs prev_d prev_c cap a bd2 bd3, ?_, ?_⟩
    · unfold drsExtract
      rw [hhead2, Option.some_bind, hhead3, Option.map_some']
    · show (((names cs).filter a.y).map (fieldOf Row.xPts cs)).sum +
        (((names dr).filter a.x).map (fieldOf Row.xPts dr)).sum +
        fieldOf Row.xPts dr bd2 + 2 * fieldOf Row.xPts dr bd3 -
        10 * a.penalty_transfers =
        wsum cs Row.xPts a.y + wsum dr Row.xPts a.x +
        fieldOf Row.xPts dr bd2 + 2 * fieldOf Row.xPts dr bd3 -
        10 * a.penalty_transfers
      rw [sum_fieldOf_filter Row.xPts a.y cs hnc,
        sum_fieldOf_filter Row.xPts a.x dr hnd]

/-- C2 witness: the recomputed-base formula instantiated on the concrete
feasible normal assignment. -/
theorem base_xPts_recomputed_bonus_free_witness :
    ∃ r, normalExtract exDrivers exConstructors exAbsentD exAbsentC 100
        exNormalAssign = some r ∧
      r.base_xPts = wsum exConstructors Row.xPts exNormalAssign.y +
        wsum exDrivers Row.xPts exNormalAssign.x +
        fieldOf Row.xPts exDrivers r.boosted_driver -
        10 * exNormalAssign.penalty_transfers :=
  base_xPts_recomputed_bonus_free.2.2.1 exDrivers exConstructors exAbsentD
    exAbsentC 100 exNormalAssign (by decide) (by decide) (by decide)

/-- C2 counterexample: on the concrete instance the unique roster is forced
and the shown assignment is optimal (every feasible assignment scores at
most its objective), yet the reported `base_xPts` is 10 while the claim's
formula — selected entries' xPts plus the boosted driver's extra copy, with
no other term — gives 70: the `- 10 * penalty` term (here 60) is part of
the reported value, so the claim as stated is false. -/
theorem base_xPts_penalty_counterexample :
    normalOptimal 0 exDrivers exConstructors exAbsentD exAbsentC 1 100
      exNormalAssign ∧
    (normalExtract exDrivers exConstructors exAbsentD exAbsentC 100
        exNormalAssign).map (fun r => r.base_xPts) = some 10 ∧
    (normalExtract exDrivers exConstructors exAbsentD exAbsentC 100
        exNormalAssign).map (claimedNormalBase exDrivers exConstructors) =
      some 70 ∧
    (10 : ℚ) ≠ 70 := by
  refine ⟨⟨exNormal_feasible, exNormal_dominates⟩, ?_, ?_, by norm_num⟩
  · simp [normalExtract, normalResultOf, names, exDrivers, exConstructors,
      exAbsentD, exAbsentC, exNormalAssign, List.filter, fieldOf, findRow]
    norm_num
  · simp [normalExtract, normalResultOf, claimedNormalBase, names, exDrivers,
      exConstructors, exAbsentD, exAbsentC, exNormalAssign, List.filter,
      fieldOf, findRow]
    norm_num

/-- C5 (amended): in every optimal solution of either solve, the continuous
`penalty_transfers` variable equals exactly `max 0 (total_transfers -
available_transfers)` — the exact excess over the allowance, never negative
— because the objective subtracts `10 * penalty_transfers` and the only
constraints on it are its lower bound 0 and
`penalty_transfers >= total_transfers - available`.  The objective charges
exactly 10 per unit of excess in both models: two assignments with equal
base points, equal price-change term (and, for DRS, equal roll flag), one
using exactly one transfer beyond the allowance and one within it
(penalties resolved to the excess), differ by exactly 10 objective points.
Exceeding the allowance is penalized but never infeasible in normal_solve,
and in drs_solve only when `available_transfers <= 1` (no roll constraint):
any assignment meeting the roster constraints becomes feasible by setting
the penalty to the excess.  The original claim's "never infeasible" fails
for drs_solve with `available_transfers > 1`: there the roll-transfer
constraint (drs.py lines 117-118) together with `roll_transfer >= 0` forces
`total_transfers <= available_transfers` in every feasible assignment, so an
over-allowance roster is excluded outright rather than charged 10 per unit;
see the counterexample. -/
theorem penalty_transfers_exact_excess :
    (∀ (w : ℚ) (dr cs : List Row) (prev_d prev_c : List String)
       (available : ℤ) (cap : ℚ) (a : NormalAssign),
       normalOptimal w dr cs prev_d prev_c available cap a →
       a.penalty_transfers = max 0
         ((total_transfers dr cs prev_d prev_c a.x a.y : ℚ) - (available : ℚ))) ∧
    (∀ (w rw2 : ℚ) (dr cs : List Row) (prev_d prev_c : List String)
       (available : ℤ) (cap : ℚ) (a : DrsAssign),
       drsOptimal w rw2 dr cs prev_d prev_c available cap a →
       a.penalty_transfers = max 0
         ((total_transfers dr cs prev_d prev_c a.x a.y : ℚ) - (available : ℚ))) ∧
    (∀ (w : ℚ) (dr cs : List Row) (prev_d prev_c : List String)
       (available : ℤ) (a1 a2 : NormalAssign),
       normalBasePoints dr cs a1 = normalBasePoints dr cs a2 →
       priceChangeTerm dr cs a1.x a1.y = priceChangeTerm dr cs a2.x a2.y →
       a1.penalty_transfers = max 0
         ((total_transfers dr cs prev_d prev_c a1.x a1.y : ℚ) - (available : ℚ)) →
       a2.penalty_transfers = max 0
         ((total_transfers dr cs prev_d prev_c a2.x a2.y : ℚ) - (available : ℚ)) →
       (total_transfers dr cs prev_d prev_c a1.x a1.y : ℤ) = available + 1 →
       (total_transfers dr cs prev_d prev_c a2.x a2.y : ℤ) ≤ available →
       normalObjective w dr cs a1 = normalObjective w dr cs a2 - 10) ∧
    (∀ (dr cs : List Row) (prev_d prev_c : List String) (available : ℤ)
       (cap : ℚ) (a : NormalAssign),
       normalRosterOk dr cs cap a →
       normalFeasible dr cs prev_d prev_c available cap
         { a with penalty_transfers := (max 0
           ((total_transfers dr cs prev_d prev_c a.x a.y : ℚ) - (available : ℚ))) }) ∧
    (∀ (w rw2 : ℚ) (dr cs : List Row) (prev_d prev_c : List String)
       (available : ℤ) (a1 a2 : DrsAssign),
       drsBasePoints dr cs a1 = drsBasePoints dr cs a2 →
       priceChangeTerm dr cs a1.x a1.y = priceChangeTerm dr cs a2.x a2.y →
       rollQ a1 = rollQ a2 →
       a1.penalty_transfers = max 0
         ((total_transfers dr cs prev_d prev_c a1.x a1.y : ℚ) - (available : ℚ)) →
       a2.penalty_transfers = max 0
         ((total_transfers dr cs prev_d prev_c a2.x a2.y : ℚ) - (available : ℚ)) →
       (total_transfers dr cs prev_d prev_c a1.x a1.y : ℤ) = available + 1 →
       (total_transfers dr cs prev_d prev_c a2.x a2.y : ℤ) ≤ available →
       drsObjective w rw2 dr cs a1 = drsObjective w rw2 dr cs a2 - 10) ∧
    (∀ (dr cs : List Row) (prev_d prev_c : List String) (available : ℤ)
       (cap : ℚ) (a : DrsAssign),
       ¬(1 < available) →
       drsRosterOk dr cs cap a →
       drsFeasible dr cs prev_d prev_c available cap
         { a with penalty_transfers := (max 0
           ((total_transfers dr cs prev_d prev_c a.x a.y : ℚ) - (available : ℚ))) }) ∧
    (∀ (dr cs : List Row) (prev_d prev_c : List String) (available : ℤ)
       (cap : ℚ) (a : DrsAssign),
       1 < available →
       drsFeasible dr cs prev_d prev_c available cap a →
       (total_transfers dr cs prev_d prev_c a.x a.y : ℤ) ≤ available) := by
  refine ⟨?_, ?_, ?_, ?_, ?_, ?_, ?_⟩
  · intro w dr cs prev_d prev_c available cap a hopt
    obtain ⟨hfeas, hdom⟩ := hopt
    have hfeas2 : normalFeasible dr cs prev_d prev_c available cap
        { a with penalty_transfers := (max 0
          ((total_transfers dr cs prev_d prev_c a.x a.y : ℚ) - (available : ℚ))) } :=
      ⟨hfeas.1, le_max_left _ _, le_max_right _ _⟩
    have h2 := hdom _ hfeas2
    have e1 : normalObjective w dr cs
        { a with penalty_transfers := (max 0
          ((total_transfers dr cs prev_d prev_c a.x a.y : ℚ) - (available : ℚ))) } =
        normalBasePoints dr cs a + w * priceChangeTerm dr cs a.x a.y -
        10 * max 0 ((total_transfers dr cs prev_d prev_c a.x a.y : ℚ) - (available : ℚ)) := rfl
    have e2 : normalObjective w dr cs a =
        normalBasePoints dr cs a + w * priceChangeTerm dr cs a.x a.y -
        10 * a.penalty_transfers := rfl
    rw [e1, e2] at h2
    have hub : a.penalty_transfers ≤ max 0
        ((total_transfers dr cs prev_d prev_c a.x a.y : ℚ) - (available : ℚ)) := by
      linarith
    have hlb : max 0
        ((total_transfers dr cs prev_d prev_c a.x a.y : ℚ) - (available : ℚ)) ≤
        a.penalty_transfers := max_le hfeas.2.1 hfeas.2.2
    exact le_antisymm hub hlb
  · intro w rw2 dr cs prev_d prev_c available cap a hopt
    obtain ⟨hfeas, hdom⟩ := hopt
    have hfeas2 : drsFeasible dr cs prev_d prev_c available cap
        { a with penalty_transfers := (max 0
          ((total_transfers dr cs prev_d prev_c a.x a.y : ℚ) - (available : ℚ))) } :=
      ⟨hfeas.1, le_max_left _ _, le_max_right _ _, hfeas.2.2.2⟩
    have h2 := hdom _ hfeas2
    have e1 : drsObjective w rw2 dr cs
        { a with penalty_transfers := (max 0
          ((total_transfers dr cs prev_d prev_c a.x a.y : ℚ) - (available : ℚ))) } =
        drsBasePoints dr cs a + w * priceChangeTerm dr cs a.x a.y -
        10 * max 0 ((total_transfers dr cs prev_d prev_c a.x a.y : ℚ) - (available : ℚ)) +
        rw2 * rollQ a := rfl
    have e2 : drsObjective w rw2 dr cs a =
        drsBasePoints dr cs a + w * priceChangeTerm dr cs a.x a.y -
        10 * a.penalty_transfers + rw2 * rollQ a := rfl
    rw [e1, e2] at h2
    have hub : a.penalty_transfers ≤ max 0
        ((total_transfers dr cs prev_d prev_c a.x a.y : ℚ) - (available : ℚ)) := by
      linarith
    have hlb : max 0
        ((total_transfers dr cs prev_d prev_c a.x a.y : ℚ) - (available : ℚ)) ≤
        a.penalty_transfers := max_le hfeas.2.1 hfeas.2.2.1
    exact le_antisymm hub hlb
  · intro w dr cs prev_d prev_c available a1 a2 hbase hpct hp1 hp2 hT1 hT2
    have hq1 : (total_transfers dr cs prev_d prev_c a1.x a1.y : ℚ) -
        (available : ℚ) = 1 := by
      have : ((total_transfers dr cs prev_d prev_c a1.x a1.y : ℤ) : ℚ) =
          ((available + 1 : ℤ) : ℚ) := by exact_mod_cast congrArg Int.cast hT1
      push_cast at this
      linarith
    have hq2 : (total_transfers dr cs prev_d prev_c a2.x a2.y : ℚ) -
        (available : ℚ) ≤ 0 := by
      have : ((total_transfers dr cs prev_d prev_c a2.x a2.y : ℤ) : ℚ) ≤
          ((available : ℤ) : ℚ) := by exact_mod_cast hT2
      push_cast at this
      linarith
    have hm1 : a1.penalty_transfers = 1 := by
      rw [hp1, hq1]
      norm_num
    have hm2 : a2.penalty_transfers = 0 := by
      rw [hp2, max_eq_left hq2]
    have e1 : normalObjective w dr cs a1 =
        normalBasePoints dr cs a1 + w * priceChangeTerm dr cs a1.x a1.y -
        10 * a1.penalty_transfers := rfl
    have e2 : normalObjective w dr cs a2 =
        normalBasePoints dr cs a2 + w * priceChangeTerm dr cs a2.x a2.y -
        10 * a2.penalty_transfers := rfl
    rw [e1, e2, hbase, hpct, hm1, hm2]
    ring
  · intro dr cs prev_d prev_c available cap a ha
    exact ⟨ha, le_max_left _ _, le_max_right _ _⟩
  · intro w rw2 dr cs prev_d prev_c available a1 a2 hbase hpct hroll hp1 hp2 hT1 hT2
    have hq1 : (total_transfers dr cs prev_d prev_c a1.x a1.y : ℚ) -
        (available : ℚ) = 1 := by
      have : ((total_transfers dr cs prev_d prev_c a1.x a1.y : ℤ) : ℚ) =
          ((available + 1 : ℤ) : ℚ) := by exact_mod_cast congrArg Int.cast hT1
      push_cast at this
      linarith
    have hq2 : (total_transfers dr cs prev_d prev_c a2.x a2.y : ℚ) -
        (available : ℚ) ≤ 0 := by
      have : ((total_transfers dr cs prev_d prev_c a2.x a2.y : ℤ) : ℚ) ≤
          ((available : ℤ) : ℚ) := by exact_mod_cast hT2
      push_cast at this
      linarith
    have hm1 : a1.penalty_transfers = 1 := by
      rw [hp1, hq1]
      norm_num
    have hm2 : a2.penalty_transfers = 0 := by
      rw [hp2, max_eq_left hq2]
    have e1 : drsObjective w rw2 dr cs a1 =
        drsBasePoints dr cs a1 + w * priceChangeTerm dr cs a1.x a1.y -
        10 * a1.penalty_transfers + rw2 * rollQ a1 := rfl
    have e2 : drsObjective w rw2 dr cs a2 =
        drsBasePoints dr cs a2 + w * priceChangeTerm dr cs a2.x a2.y -
        10 * a2.penalty_transfers + rw2 * rollQ a2 := rfl
    rw [e1, e2, hbase, hpct, hroll, hm1, hm2]
    ring
  · intro dr cs prev_d prev_c available cap a hno ha
    exact ⟨ha, le_max_left _ _, le_max_right _ _, fun h1 => absurd h1 hno⟩
  · intro dr cs prev_d prev_c available cap a havail hfeas
    have hc := hfeas.2.2.2 havail
    have hr0 : (0 : ℚ) ≤ rollQ a := by
      unfold rollQ
      split <;> norm_num
    have hA : (0 : ℚ) < (available : ℚ) := by
      have : (0 : ℤ) < available := lt_trans Int.zero_lt_one havail
      exact_mod_cast this
    have hdiv : (total_transfers dr cs prev_d prev_c a.x a.y : ℚ) /
        (available : ℚ) ≤ 1 := by linarith
    have hle : (total_transfers dr cs prev_d prev_c a.x a.y : ℚ) ≤
        (available : ℚ) := (div_le_one hA).mp hdiv
    exact_mod_cast hle

/-- C5 witness: on the concrete optimal instance (7 transfers against an
allowance of 1) the penalty variable is pinned to the exact excess. -/
theorem penalty_transfers_exact_excess_witness :
    exNormalAssign.penalty_transfers = max 0
      ((total_transfers exDrivers exConstructors exAbsentD exAbsentC
        exNormalAssign.x exNormalAssign.y : ℚ) - ((1 : ℤ) : ℚ)) :=
  penalty_transfers_exact_excess.1 0 exDrivers exConstructors exAbsentD
    exAbsentC 1 100 exNormalAssign ⟨exNormal_feasible, exNormal_dominates⟩

/-- C5 counterexample: in the DRS model, exceeding the allowance can be
infeasible, not merely penalized.  On the concrete table with the previous
roster absent, the only possible roster needs 7 transfers against an
allowance of 2; the assignment satisfies every roster constraint and
carries exactly the claim's prescribed penalty max(0, 7 - 2) = 5, yet it is
infeasible with the roll flag down and with it up — the roll-transfer
constraint `roll_transfer <= 1 - 7/2` (drs.py lines 117-118) is violated by
both 0 and 1 — so the claim's "exceeding the allowance is penalized but
never infeasible" is false for drs_solve. -/
theorem drs_over_allowance_infeasible_counterexample :
    drsRosterOk exDrivers exConstructors 100 exDrsAssign2 ∧
    total_transfers exDrivers exConstructors exAbsentD exAbsentC
      exDrsAssign2.x exDrsAssign2.y = 7 ∧
    exDrsAssign2.penalty_transfers = max 0 ((7 : ℚ) - (2 : ℚ)) ∧
    ¬ drsFeasible exDrivers exConstructors exAbsentD exAbsentC 2 100
      exDrsAssign2 ∧
    ¬ drsFeasible exDrivers exConstructors exAbsentD exAbsentC 2 100
      { exDrsAssign2 with roll_transfer := true } := by
  have hT : total_transfers exDrivers exConstructors exAbsentD exAbsentC
      exDrsAssign2.x exDrsAssign2.y = 7 := by decide
  refine ⟨?_, hT, ?_, ?_, ?_⟩
  · refine ⟨?_, ?_, ?_, ?_, ?_, ?_, ?_, ?_⟩ <;>
      simp [drsRosterOk, selCount, wsum, names, exDrivers, exConstructors,
        exDrsAssign2, List.filter] <;>
      norm_num
  · show (5 : ℚ) = max 0 ((7 : ℚ) - (2 : ℚ))
    norm_num
  · rintro ⟨-, -, -, hc⟩
    have h2 := hc (by norm_num)
    rw [hT] at h2
    rw [show rollQ exDrsAssign2 = 0 from rfl] at h2
    norm_num at h2
  · rintro ⟨-, -, -, hc⟩
    have h2 := hc (by norm_num)
    have hT2 : total_transfers exDrivers exConstructors exAbsentD exAbsentC
        ({ exDrsAssign2 with roll_transfer := true } : DrsAssign).x
        ({ exDrsAssign2 with roll_transfer := true } : DrsAssign).y = 7 := hT
    rw [hT2] at h2
    rw [show rollQ { exDrsAssign2 with roll_transfer := true } = 1 from rfl] at h2
    norm_num at h2
